import Mathlib

set_option maxHeartbeats 1000000

/-!
Verification of the EU QA RAG service: a shallow embedding of the markdown
QA parser, the content-addressed collection identifier, the Qdrant vector
store layer, the prompt assembly helpers and the chat orchestrator, with
theorems settling the frozen claims about them.

Strings are modelled as `List Char` (the sequence of Unicode code points of
a Python `str`).  External network services (the embedding API, the vector
store, the completion API) are modelled by explicit function parameters and
an explicit store state.
-/

/-! ## Python string primitives

`pyIsSpace` is the set of characters Python `str.strip` removes
(`str.isspace`), `isLineBreak` the set of line boundaries of
`str.splitlines`. -/

def pyIsSpace (c : Char) : Bool :=
  c == ' ' || c == '\t' || c == '\n' || c == '\x0b' || c == '\x0c' || c == '\r' ||
  c == '\x1c' || c == '\x1d' || c == '\x1e' || c == '\x1f' || c == '\x85' ||
  c == '\xa0' || c == ' ' || c == ' ' || c == ' ' || c == ' ' ||
  c == ' ' || c == ' ' || c == ' ' || c == ' ' || c == ' ' ||
  c == ' ' || c == ' ' || c == ' ' || c == ' ' || c == ' ' ||
  c == ' ' || c == ' ' || c == '　'

def isLineBreak (c : Char) : Bool :=
  c == '\n' || c == '\r' || c == '\x0b' || c == '\x0c' || c == '\x1c' ||
  c == '\x1d' || c == '\x1e' || c == '\x85' || c == ' ' || c == ' '

/-- Python `str.lstrip()`. -/
def py_lstrip (cs : List Char) : List Char := cs.dropWhile pyIsSpace

/-- Python `str.rstrip()`. -/
def py_rstrip (cs : List Char) : List Char := (cs.reverse.dropWhile pyIsSpace).reverse

/-- Python `str.strip()` (written as rstrip followed by lstrip; the two
orders agree). -/
def py_strip (cs : List Char) : List Char := py_lstrip (py_rstrip cs)

/-- Python `sep.join(pieces)`. -/
def join_sep (sep : List Char) : List (List Char) → List Char
  | [] => []
  | [l] => l
  | l :: ls => l ++ sep ++ join_sep sep ls

/-- Python `str.splitlines()`, accumulator worker.  A line ends at any line
boundary character, `\r\n` counting as a single boundary; a trailing
boundary does not open a final empty line. -/
def splitlinesAux : List Char → List Char → List (List Char)
  | [], acc => [acc.reverse]
  | '\r' :: '\n' :: rest, acc =>
      acc.reverse :: (if rest.isEmpty then [] else splitlinesAux rest [])
  | c :: rest, acc =>
      if isLineBreak c then
        acc.reverse :: (if rest.isEmpty then [] else splitlinesAux rest [])
      else splitlinesAux rest (c :: acc)

/-- Python `str.splitlines()`. -/
def splitlines (cs : List Char) : List (List Char) :=
  if cs.isEmpty then [] else splitlinesAux cs []

/-! ## Document Parser (`QdrantLayer._validate_and_load_md_file`)

The source first deletes every substring matching the regex
`\(!\[\].*?=\)` (image/link markup), then splits on the regex `###\s*`,
drops the fragment before the first heading, and turns each remaining
fragment into a question (first line, stripped) and an answer (remaining
lines joined with a newline, stripped), skipping fragments with fewer than
two lines.  Recursions that do not consume their list argument structurally
carry an explicit fuel so that every definition evaluates by kernel
reduction; the fuel is always initialised large enough never to run out. -/

/-- Scanning helper for the lazy regex tail `.*?=\)`: finds the first
close marker `=)` reachable without crossing a newline (`.` does not match
`\n`), returning the remainder after it. -/
def find_close : List Char → Option (List Char)
  | '=' :: ')' :: rest => some rest
  | '\n' :: _ => none
  | _ :: rest => find_close rest
  | [] => none

/-- `re.sub(r"\(!\[\].*?=\)", "", content)`: worker with fuel. -/
def strip_images_aux : Nat → List Char → List Char
  | 0, cs => cs
  | _ + 1, [] => []
  | fuel + 1, '(' :: '!' :: '[' :: ']' :: rest =>
      match find_close rest with
      | some rest2 => strip_images_aux fuel rest2
      | none => '(' :: strip_images_aux fuel ('!' :: '[' :: ']' :: rest)
  | fuel + 1, c :: rest => c :: strip_images_aux fuel rest

/-- `re.sub(r"\(!\[\].*?=\)", "", content)`. -/
def strip_images (cs : List Char) : List Char := strip_images_aux (cs.length + 1) cs

/-- Does the text begin with the heading marker `###`? -/
def starts_triple : List Char → Bool
  | '#' :: '#' :: '#' :: _ => true
  | _ => false

/-- Does the text contain the heading marker `###` anywhere? -/
def contains_triple : List Char → Bool
  | [] => false
  | c :: rest => starts_triple (c :: rest) || contains_triple rest

/-- `re.split(r"###\s*", content)`: worker with fuel.  At a heading marker
the marker and the following maximal whitespace run are consumed and a new
fragment starts; otherwise the character joins the current fragment. -/
def split_sections_aux : Nat → List Char → List Char → List (List Char)
  | 0, cs, acc => [acc.reverse ++ cs]
  | _ + 1, [], acc => [acc.reverse]
  | fuel + 1, c :: rest, acc =>
      if starts_triple (c :: rest) then
        acc.reverse :: split_sections_aux fuel (((c :: rest).drop 3).dropWhile pyIsSpace) []
      else split_sections_aux fuel rest (c :: acc)

/-- `re.split(r"###\s*", content)`. -/
def split_sections (cs : List Char) : List (List Char) :=
  split_sections_aux (cs.length + 1) cs []

deriving instance DecidableEq for Except

/-- One parsed question/answer pair (`{"question": ..., "answer": ...}`). -/
structure QARecord where
  question : List Char
  answer : List Char
deriving DecidableEq, Repr

/-- The per-fragment body of the parsing loop: strip the fragment, split it
into lines; fewer than two lines is invalid (skipped), otherwise the first
line (stripped) is the question and the remaining lines joined with `\n`
(stripped) are the answer. -/
def section_to_record (sec : List Char) : Option QARecord :=
  match splitlines (py_strip sec) with
  | l0 :: l1 :: rest => some ⟨py_strip l0, py_strip (join_sep ['\n'] (l1 :: rest))⟩
  | _ => none

/-- The parsing loop over the fragments after the first: invalid fragments
are skipped with a warning, valid ones appended in order. -/
def parse_sections : List (List Char) → List QARecord
  | [] => []
  | sec :: rest =>
      match section_to_record sec with
      | none => parse_sections rest
      | some r => r :: parse_sections rest

/-- The full parsing pipeline of `_validate_and_load_md_file` up to the
record list: strip image markup, split on `###`, drop the preamble
fragment, process each fragment. -/
def parse_documents (content : List Char) : List QARecord :=
  parse_sections ((split_sections (strip_images content)).drop 1)

/-! ## SHA-256 (`hashlib.sha256(...).hexdigest()`)

A complete FIPS 180-4 SHA-256 over byte lists, words as `Nat` reduced
modulo `2 ^ 32`, together with UTF-8 encoding (Python `str.encode()`). -/

/-- UTF-8 encoding of one code point. -/
def utf8_encode_char (c : Char) : List Nat :=
  let n := c.toNat
  if n < 128 then [n]
  else if n < 2048 then [192 ||| (n >>> 6), 128 ||| (n &&& 63)]
  else if n < 65536 then
    [224 ||| (n >>> 12), 128 ||| ((n >>> 6) &&& 63), 128 ||| (n &&& 63)]
  else
    [240 ||| (n >>> 18), 128 ||| ((n >>> 12) &&& 63),
     128 ||| ((n >>> 6) &&& 63), 128 ||| (n &&& 63)]

/-- Python `str.encode()`: UTF-8 bytes of the string. -/
def utf8_encode (s : List Char) : List Nat := (s.map utf8_encode_char).flatten

/-- Right rotation of a 32-bit word. -/
def rotr32 (n x : Nat) : Nat := ((x >>> n) ||| (x <<< (32 - n))) % 4294967296

def sha_ch (x y z : Nat) : Nat := (x &&& y) ^^^ ((x ^^^ 4294967295) &&& z)

def sha_maj (x y z : Nat) : Nat := (x &&& y) ^^^ (x &&& z) ^^^ (y &&& z)

def sha_bsig0 (x : Nat) : Nat := rotr32 2 x ^^^ rotr32 13 x ^^^ rotr32 22 x

def sha_bsig1 (x : Nat) : Nat := rotr32 6 x ^^^ rotr32 11 x ^^^ rotr32 25 x

def sha_ssig0 (x : Nat) : Nat := rotr32 7 x ^^^ rotr32 18 x ^^^ (x >>> 3)

def sha_ssig1 (x : Nat) : Nat := rotr32 17 x ^^^ rotr32 19 x ^^^ (x >>> 10)

/-- The 64 SHA-256 round constants of FIPS 180-4 (decimal). -/
def shaK : List Nat :=
  [1116352408, 1899447441, 3049323471, 3921009573,
   961987163, 1508970993, 2453635748, 2870763221,
   3624381080, 310598401, 607225278, 1426881987,
   1925078388, 2162078206, 2614888103, 3248222580,
   3835390401, 4022224774, 264347078, 604807628,
   770255983, 1249150122, 1555081692, 1996064986,
   2554220882, 2821834349, 2952996808, 3210313671,
   3336571891, 3584528711, 113926993, 338241895,
   666307205, 773529912, 1294757372, 1396182291,
   1695183700, 1986661051, 2177026350, 2456956037,
   2730485921, 2820302411, 3259730800, 3345764771,
   3516065817, 3600352804, 4094571909, 275423344,
   430227734, 506948616, 659060556, 883997877,
   958139571, 1322822218, 1537002063, 1747873779,
   1955562222, 2024104815, 2227730452, 2361852424,
   2428436474, 2756734187, 3204031479, 3329325298]

/-- The initial SHA-256 hash state of FIPS 180-4 (decimal). -/
def shaH0 : List Nat :=
  [1779033703, 3144134277, 1013904242, 2773480762,
   1359893119, 2600822924, 528734635, 1541459225]

/-- Big-endian 8-byte encoding of the message bit length. -/
def be_bytes8 (n : Nat) : List Nat :=
  (List.range 8).map fun i => (n >>> (8 * (7 - i))) % 256

/-- SHA-256 padding: `0x80`, zeros to 56 mod 64, 8 length bytes. -/
def sha256_pad (msg : List Nat) : List Nat :=
  msg ++ [128] ++ List.replicate ((64 - ((msg.length + 9) % 64)) % 64) 0 ++
    be_bytes8 (8 * msg.length)

/-- Split a byte list into 64-byte blocks (fuelled worker). -/
def chunk64 : Nat → List Nat → List (List Nat)
  | 0, _ => []
  | _ + 1, [] => []
  | fuel + 1, l => l.take 64 :: chunk64 fuel (l.drop 64)

/-- Big-endian 32-bit words of a 64-byte block. -/
def be_words : List Nat → List Nat
  | b0 :: b1 :: b2 :: b3 :: rest => (((b0 * 256 + b1) * 256 + b2) * 256 + b3) :: be_words rest
  | _ => []

/-- Message schedule: extend 16 words to 64. -/
def sha_extend (w : List Nat) : List Nat :=
  (List.range 48).foldl
    (fun w _ =>
      let n := w.length
      w ++ [(sha_ssig1 (w.getD (n - 2) 0) + w.getD (n - 7) 0 +
             sha_ssig0 (w.getD (n - 15) 0) + w.getD (n - 16) 0) % 4294967296])
    w

/-- One compression round. -/
def sha_round (s : Nat × Nat × Nat × Nat × Nat × Nat × Nat × Nat) (kw : Nat × Nat) :
    Nat × Nat × Nat × Nat × Nat × Nat × Nat × Nat :=
  match s, kw with
  | (a, b, c, d, e, f, g, h), (k, w) =>
    let t1 := (h + sha_bsig1 e + sha_ch e f g + k + w) % 4294967296
    let t2 := (sha_bsig0 a + sha_maj a b c) % 4294967296
    ((t1 + t2) % 4294967296, a, b, c, (d + t1) % 4294967296, e, f, g)

/-- Compress one 64-byte block into the running hash state. -/
def sha_compress (hs : List Nat) (block : List Nat) : List Nat :=
  let w := sha_extend (be_words block)
  match (shaK.zip w).foldl sha_round
      (hs.getD 0 0, hs.getD 1 0, hs.getD 2 0, hs.getD 3 0,
       hs.getD 4 0, hs.getD 5 0, hs.getD 6 0, hs.getD 7 0) with
  | (a, b, c, d, e, f, g, h) =>
    [(hs.getD 0 0 + a) % 4294967296, (hs.getD 1 0 + b) % 4294967296,
     (hs.getD 2 0 + c) % 4294967296, (hs.getD 3 0 + d) % 4294967296,
     (hs.getD 4 0 + e) % 4294967296, (hs.getD 5 0 + f) % 4294967296,
     (hs.getD 6 0 + g) % 4294967296, (hs.getD 7 0 + h) % 4294967296]

/-- SHA-256 of a byte list, as eight 32-bit words. -/
def sha256_words (msg : List Nat) : List Nat :=
  (chunk64 (sha256_pad msg).length (sha256_pad msg)).foldl sha_compress shaH0

/-- One lowercase hexadecimal digit. -/
def hex_digit (n : Nat) : Char := if n < 10 then Char.ofNat (48 + n) else Char.ofNat (87 + n)

/-- Eight lowercase hexadecimal digits of a 32-bit word. -/
def to_hex8 (w : Nat) : List Char :=
  (List.range 8).map fun i => hex_digit ((w >>> (4 * (7 - i))) % 16)

/-- `hashlib.sha256(bytes).hexdigest()`: the 64-character lowercase
hexadecimal digest. -/
def sha256_hex (msg : List Nat) : List Char := ((sha256_words msg).map to_hex8).flatten

/-! ## Collection identity and document loading -/

/-- The question of the first record (`documents[0]["question"]`). -/
def first_question (docs : List QARecord) : List Char := (docs.headD ⟨[], []⟩).question

/-- The question of the last record (`documents[-1]["question"]`). -/
def last_question (docs : List QARecord) : List Char := (docs.getLastD ⟨[], []⟩).question

/-- The collection identifier: the SHA-256 hex digest of the UTF-8 bytes of
the first question concatenated with the last question. -/
def document_encryption (docs : List QARecord) : List Char :=
  sha256_hex (utf8_encode (first_question docs ++ last_question docs))

/-- The message of the `ValueError` raised on an empty record list. -/
def md_error_msg : List Char :=
  "Markdown file must contain at least one valid question and answer section.".data

/-- `_validate_and_load_md_file` on the file content: the parsed records
and the collecting identifier, or the validation error when no valid
section was found. -/
def validate_and_load (content : List Char) :
    Except (List Char) (List QARecord × List Char) :=
  match parse_documents content with
  | [] => .error md_error_msg
  | d :: ds => .ok (d :: ds, document_encryption (d :: ds))

/-! ## Vector Index Adapter (`QdrantLayer`)

The external embedding API is a parameter `api_embed` from text to a
vector of an arbitrary type, and the Qdrant store is an explicit
association list from collection names to point lists.  Nearest-first
ordering of a search is abstracted by a parameter `rank` (the store sorts
the points of the collection by cosine similarity to the query vector);
any `rank` that permutes the point list is a valid store behaviour. -/

/-- An indexed point: sequential integer id, embedding vector, the full
record as payload (`models.PointStruct`). -/
structure Point (V : Type) where
  id : Nat
  vector : V
  payload : QARecord
deriving DecidableEq

/-- The state of the external vector store: the existing collections with
their points. -/
abbrev QdrantState (V : Type) : Type := List (List Char × List (Point V))

/-- `get_collections()`: the names of the existing collections. -/
def get_collections {V : Type} (st : QdrantState V) : List (List Char) := st.map Prod.fst

/-- The points of a named collection, or `none` when the collection does
not exist. -/
def lookup_collection {V : Type} : QdrantState V → List Char → Option (List (Point V))
  | [], _ => none
  | (n, pts) :: rest, name => if n = name then some pts else lookup_collection rest name

/-- `get_embedding(text)`: newlines are collapsed to spaces, then the
external embedding API is called. -/
def get_embedding {V : Type} (api_embed : List Char → V) (text : List Char) : V :=
  api_embed (text.map fun c => if c = '\n' then ' ' else c)

/-- The point list built by `upload_points` during `setup_qdrant`: one
point per record of `self.documents[:2]`, with sequential ids from `0`,
the embedding of the question as vector and the record as payload. -/
def upload_points {V : Type} (api_embed : List Char → V) (docs : List QARecord) :
    List (Point V) :=
  (docs.take 2).enum.map fun p => ⟨p.1, get_embedding api_embed p.2.question, p.2⟩

/-- `setup_qdrant()`: if the collection named by the document hash is
absent, create it and upload the point list; otherwise skip setup. -/
def setup_qdrant {V : Type} (api_embed : List Char → V) (docs : List QARecord)
    (ident : List Char) (st : QdrantState V) : QdrantState V :=
  if ident ∈ get_collections st then st
  else st ++ [(ident, upload_points api_embed docs)]

/-- `retrieve(message, retrieve_n_queries)`: embed the message and search
the collection, returning the payloads of the at most
`retrieve_n_queries` nearest points; searching an absent collection is the
not-found error of the store.  `retrieve` performs no collection creation:
it reads the store and nothing else. -/
def retrieve {V : Type} (rank : V → List (Point V) → List (Point V))
    (api_embed : List Char → V) (st : QdrantState V) (ident : List Char)
    (message : List Char) (retrieve_n_queries : Nat) : Except Unit (List QARecord) :=
  match lookup_collection st ident with
  | none => .error ()
  | some pts =>
      .ok (((rank (get_embedding api_embed message) pts).take retrieve_n_queries).map
        Point.payload)

/-! ## Prompt Assembler (`RAG_LLM`) -/

/-- A LangChain conversation turn: `HumanMessage` or `AIMessage`. -/
inductive LCMessage where
  | human (content : List Char)
  | ai (content : List Char)
deriving DecidableEq

/-- `langchain_format(message, history)`: each history pair appended as a
human then an ai message, then the current message as a final human
message. -/
def langchain_format (message : List Char) (history : List (List Char × List Char)) :
    List LCMessage :=
  (history.foldl (fun acc p => acc ++ [LCMessage.human p.1, LCMessage.ai p.2]) []) ++
    [LCMessage.human message]

/-- One rendered record of the documents block: the question, a newline,
the answer (the f-string `{question}\n{answer}`). -/
def render_block (r : QARecord) : List Char := r.question ++ '\n' :: r.answer

/-- `reformat_closest_queries(queries)`: concatenate
`f"{question}\n{answer}\n\n"` over the records, then Python `strip()`. -/
def reformat_closest_queries (queries : List QARecord) : List Char :=
  py_strip (queries.foldl (fun acc r => acc ++ render_block r ++ ['\n', '\n']) [])

/-- Modelled from the wording of the claim, for comparison with the source
function: each record rendered as question newline answer, records joined
by a blank line, then trailing whitespace trimmed exactly once (and
nothing else). -/
def reformat_spec_trailing_only (queries : List QARecord) : List Char :=
  py_rstrip (join_sep ['\n', '\n'] (queries.map render_block))

/-! ## Chat Orchestrator (`main.process_message_async`) -/

/-- The deadline passed to `asyncio.wait_for`. -/
def timeout_seconds : Nat := 15

/-- `asyncio.wait_for(coro, timeout)`: the result of the awaited
computation if it completes within the deadline, a timeout error
otherwise.  The wall-clock duration of the completion call is the explicit
argument `elapsed`. -/
def await_with_timeout (timeout elapsed : Nat) (result : List Char) :
    Except Unit (List Char) :=
  if elapsed ≤ timeout then .ok result else .error ()

/-- `process_message_async(message, history)`: await the completion with a
15-second timeout; on success append the `[message, response]` pair to the
history and return the response; on timeout return the sentinel text and
leave the history untouched.  Returns the response together with the
resulting history buffer. -/
def process_message_async (elapsed : Nat) (result : List Char) (message : List Char)
    (history : List (List Char × List Char)) :
    List Char × List (List Char × List Char) :=
  match await_with_timeout timeout_seconds elapsed result with
  | .ok response => (response, history ++ [(message, response)])
  | .error _ => ("Request timed out.".data, history)

/-! ## Helper lemmas -/

/-- The first element surviving `dropWhile` falsifies the predicate. -/
theorem dropWhile_head_false {α : Type} (p : α → Bool) (l : List α) (c : α) (t : List α)
    (h : l.dropWhile p = c :: t) : p c = false := by
  induction l with
  | nil => simp at h
  | cons a l ih =>
    by_cases hp : p a
    · rw [List.dropWhile_cons_of_pos hp] at h; exact ih h
    · rw [List.dropWhile_cons_of_neg hp] at h
      cases h; exact Bool.not_eq_true _ |>.mp hp

theorem mem_dropWhile_of_false {α : Type} (p : α → Bool) (l : List α) (x : α)
    (hx : x ∈ l) (hp : p x = false) : x ∈ l.dropWhile p := by
  induction l with
  | nil => simp at hx
  | cons a l ih =>
    by_cases ha : p a
    · rw [List.dropWhile_cons_of_pos ha]
      rcases List.mem_cons.mp hx with rfl | hx2
      · rw [hp] at ha; exact absurd ha (by simp)
      · exact ih hx2
    · rw [List.dropWhile_cons_of_neg ha]; exact hx

/-- A member falsifying the whitespace predicate survives `py_strip`. -/
theorem py_strip_ne_nil_of_mem (l : List Char) (x : Char)
    (hx : x ∈ l) (hp : pyIsSpace x = false) : py_strip l ≠ [] := by
  have h1 : x ∈ py_rstrip l := by
    unfold py_rstrip
    exact List.mem_reverse.mpr
      (mem_dropWhile_of_false _ _ _ (List.mem_reverse.mpr hx) hp)
  have h2 : x ∈ py_strip l := mem_dropWhile_of_false _ _ _ h1 hp
  intro hnil; rw [hnil] at h2; simp at h2

/-- The head of a nonempty `py_strip` result is not whitespace. -/
theorem py_strip_head_not_space (l : List Char) (c : Char) (t : List Char)
    (h : py_strip l = c :: t) : pyIsSpace c = false :=
  dropWhile_head_false _ _ _ _ h

theorem getLast?_dropWhile {α : Type} (p : α → Bool) (l : List α)
    (h : l.dropWhile p ≠ []) : (l.dropWhile p).getLast? = l.getLast? := by
  conv_rhs => rw [← List.takeWhile_append_dropWhile (p := p) (l := l)]
  exact (List.getLast?_append_of_ne_nil _ h).symm

/-- The last element of a nonempty `py_rstrip` result is not whitespace. -/
theorem py_rstrip_getLast_not_space (l : List Char) (c : Char)
    (h : (py_rstrip l).getLast? = some c) : pyIsSpace c = false := by
  unfold py_rstrip at h
  rw [List.getLast?_reverse] at h
  rcases hd : l.reverse.dropWhile pyIsSpace with _ | ⟨a, t⟩
  · rw [hd] at h; simp at h
  · rw [hd] at h; simp at h; rw [← h]
    exact dropWhile_head_false _ _ _ _ hd

/-- The last element of a nonempty `py_strip` result is not whitespace. -/
theorem py_strip_getLast_not_space (l : List Char) (c : Char)
    (h : (py_strip l).getLast? = some c) : pyIsSpace c = false := by
  unfold py_strip py_lstrip at h
  have hne : (py_rstrip l).dropWhile pyIsSpace ≠ [] := by
    intro hnil; rw [hnil] at h; simp at h
  rw [getLast?_dropWhile _ _ hne] at h
  exact py_rstrip_getLast_not_space _ _ h

/-- `py_strip` is idempotent. -/
theorem py_strip_idem (l : List Char) : py_strip (py_strip l) = py_strip l := by
  rcases hs : py_strip l with _ | ⟨c, t⟩
  · rfl
  · have hhead : pyIsSpace c = false := py_strip_head_not_space _ _ _ hs
    have hlast : pyIsSpace ((c :: t).getLast (by simp)) = false := by
      apply py_strip_getLast_not_space l
      rw [hs, List.getLast?_eq_getLast]
    have hr : py_rstrip (c :: t) = c :: t := by
      unfold py_rstrip
      rcases hrev : (c :: t).reverse with _ | ⟨a, s⟩
      · simp at hrev
      · have ha : a = (c :: t).getLast (by simp) := by
          have h0 := List.getLast?_reverse (l := (c :: t).reverse)
          rw [List.reverse_reverse, hrev] at h0
          rw [List.getLast?_eq_getLast (c :: t) (by simp)] at h0
          simp only [List.head?_cons] at h0
          exact (Option.some_inj.mp h0).symm
        rw [List.dropWhile_cons_of_neg (by rw [ha, hlast]; simp), ← hrev,
          List.reverse_reverse]
    unfold py_strip
    rw [hr]
    unfold py_lstrip
    rw [List.dropWhile_cons_of_neg (by rw [hhead]; simp)]


/-- Every line boundary character is whitespace. -/
theorem pyIsSpace_of_isLineBreak (c : Char) (h : isLineBreak c = true) :
    pyIsSpace c = true := by
  simp only [isLineBreak, Bool.or_eq_true, beq_iff_eq] at h
  rcases h with ((((((((h | h) | h) | h) | h) | h) | h) | h) | h) | h <;>
    (subst h; decide)

/-- `getLast?` skips the head when the tail is nonempty. -/
theorem getLast?_cons_ne {α : Type} (x : α) (l : List α) (h : l ≠ []) :
    (x :: l).getLast? = l.getLast? := by
  rcases l with _ | ⟨b, m⟩
  · exact absurd rfl h
  · exact List.getLast?_cons_cons

/-- `splitlinesAux` never returns the empty list. -/
theorem splitlinesAux_ne_nil (cs acc : List Char) : splitlinesAux cs acc ≠ [] := by
  induction cs, acc using splitlinesAux.induct with
  | case1 acc => simp [splitlinesAux]
  | case2 rest acc ih => rw [splitlinesAux.eq_def]; simp
  | case3 c rest acc hside hbrk ih =>
    rw [splitlinesAux.eq_def]
    split
    · simp
    · simp
    · rename_i h1 h2
      injection h2 with hc hr
      subst hc; subst hr
      simp [hbrk]
  | case4 c rest acc hside hbrk ih =>
    rw [splitlinesAux.eq_def]
    split
    · simp
    · simp
    · rename_i h1 h2
      injection h2 with hc hr
      subst hc; subst hr
      rw [if_neg hbrk]
      exact ih

/-- The first line produced by `splitlinesAux` extends the reversed
accumulator. -/
theorem splitlinesAux_first (cs acc : List Char) :
    ∃ t rest, splitlinesAux cs acc = (acc.reverse ++ t) :: rest := by
  induction cs, acc using splitlinesAux.induct with
  | case1 acc => exact ⟨[], [], by simp [splitlinesAux]⟩
  | case2 rest acc ih =>
    refine ⟨[], if rest.isEmpty then [] else splitlinesAux rest [], ?_⟩
    rw [splitlinesAux.eq_def]
    simp
  | case3 c rest acc hside hbrk ih =>
    refine ⟨[], if rest.isEmpty then [] else splitlinesAux rest [], ?_⟩
    rw [splitlinesAux.eq_def]
    split
    · rename_i h2; simp at h2
    · rename_i h2
      injection h2 with hc hr
      exact (hside _ hc hr).elim
    · rename_i h1 h2
      injection h2 with hc hr
      subst hc; subst hr
      rw [if_pos hbrk]
      simp
  | case4 c rest acc hside hbrk ih =>
    obtain ⟨t, r, hr2⟩ := ih
    refine ⟨c :: t, r, ?_⟩
    rw [splitlinesAux.eq_def]
    split
    · rename_i h2; simp at h2
    · rename_i h2
      injection h2 with hc hr
      exact (hside _ hc hr).elim
    · rename_i h1 h2
      injection h2 with hc hr
      subst hc; subst hr
      rw [if_neg hbrk, hr2]
      simp

/-- When the text ends in a non-boundary character, the last line produced
by `splitlinesAux` contains that character. -/
theorem splitlinesAux_last (cs acc : List Char) :
    ∀ z, cs.getLast? = some z → isLineBreak z = false →
      ∃ L, (splitlinesAux cs acc).getLast? = some L ∧ z ∈ L := by
  induction cs, acc using splitlinesAux.induct with
  | case1 acc => intro z hz hbz; simp at hz
  | case2 rest acc ih =>
    intro z hz hbz
    rcases hrest : rest with _ | ⟨a, t⟩
    · subst hrest
      rw [List.getLast?_cons_cons] at hz
      simp at hz
      subst hz
      have hn : isLineBreak '\n' = true := by decide
      rw [hn] at hbz; cases hbz
    · subst hrest
      rw [List.getLast?_cons_cons, List.getLast?_cons_cons] at hz
      obtain ⟨L, hL, hzL⟩ := ih z hz hbz
      refine ⟨L, ?_, hzL⟩
      rw [splitlinesAux.eq_def]
      simp only [List.isEmpty_cons, Bool.false_eq_true, if_false]
      rw [getLast?_cons_ne _ _ (splitlinesAux_ne_nil _ _)]
      exact hL
  | case3 c rest acc hside hbrk ih =>
    intro z hz hbz
    rcases hrest : rest with _ | ⟨a, t⟩
    · subst hrest
      simp at hz
      subst hz
      rw [hbrk] at hbz; cases hbz
    · subst hrest
      rw [List.getLast?_cons_cons] at hz
      obtain ⟨L, hL, hzL⟩ := ih z hz hbz
      refine ⟨L, ?_, hzL⟩
      rw [splitlinesAux.eq_def]
      split
      · rename_i h2; simp at h2
      · rename_i h2
        injection h2 with hc hr
        exact (hside _ hc hr).elim
      · rename_i h1 h2
        injection h2 with hc hr
        subst hc; subst hr
        rw [if_pos hbrk]
        simp only [List.isEmpty_cons, Bool.false_eq_true, if_false]
        rw [getLast?_cons_ne _ _ (splitlinesAux_ne_nil _ _)]
        exact hL
  | case4 c rest acc hside hbrk ih =>
    intro z hz hbz
    rcases hrest : rest with _ | ⟨a, t⟩
    · subst hrest
      simp at hz
      subst hz
      refine ⟨(c :: acc).reverse, ?_, by simp⟩
      rw [splitlinesAux.eq_def]
      split
      · rename_i h2; simp at h2
      · rename_i h2
        injection h2 with hc hr
        exact (hside _ hc hr).elim
      · rename_i h1 h2
        injection h2 with hc hr
        subst hc; subst hr
        rw [if_neg hbrk]
        simp [splitlinesAux]
    · subst hrest
      rw [List.getLast?_cons_cons] at hz
      obtain ⟨L, hL, hzL⟩ := ih z hz hbz
      refine ⟨L, ?_, hzL⟩
      rw [splitlinesAux.eq_def]
      split
      · rename_i h2; simp at h2
      · rename_i h2
        injection h2 with hc hr
        exact (hside _ hc hr).elim
      · rename_i h1 h2
        injection h2 with hc hr
        subst hc; subst hr
        rw [if_neg hbrk]
        exact hL

/-- A character of a member line is a character of the joined text. -/
theorem mem_join_sep (sep : List Char) (ls : List (List Char)) (L : List Char)
    (x : Char) (hL : L ∈ ls) (hx : x ∈ L) : x ∈ join_sep sep ls := by
  induction ls using join_sep.induct sep with
  | case1 => simp at hL
  | case2 l =>
    rw [List.mem_singleton] at hL
    subst hL
    simpa [join_sep] using hx
  | case3 l ls hne ih =>
    rw [join_sep.eq_def]
    split
    · rename_i h2; simp at h2
    · rename_i h2
      rw [h2] at hL
      rw [List.mem_singleton] at hL
      subst hL
      simp [hx]
    · rename_i h1 h2
      injection h2 with hl hls
      subst hl; subst hls
      rcases List.mem_cons.mp hL with rfl | hmem
      · simp [hx]
      · simp [ih hmem]


theorem mem_of_getLast?_eq {α : Type} (l : List α) (x : α) (h : l.getLast? = some x) :
    x ∈ l := by
  induction l with
  | nil => simp at h
  | cons a l ih =>
    rcases hl : l with _ | ⟨b, m⟩
    · subst hl; simp at h; simp [h]
    · subst hl
      rw [List.getLast?_cons_cons] at h
      exact List.mem_cons_of_mem _ (ih h)

/-- A fragment is skipped exactly when its stripped text has fewer than
two lines. -/
theorem section_to_record_none_iff (sec : List Char) :
    section_to_record sec = none ↔ (splitlines (py_strip sec)).length < 2 := by
  rcases h : splitlines (py_strip sec) with _ | ⟨l0, _ | ⟨l1, rest⟩⟩ <;>
    simp [section_to_record, h]

/-- Any record produced from a fragment has a nonempty, fully stripped
question and a nonempty, fully stripped answer. -/
theorem section_to_record_props (sec : List Char) (r : QARecord)
    (h : section_to_record sec = some r) :
    r.question.isEmpty = false ∧ r.answer.isEmpty = false ∧
      py_strip r.question = r.question ∧ py_strip r.answer = r.answer := by
  unfold section_to_record at h
  rcases heq : splitlines (py_strip sec) with _ | ⟨l0, _ | ⟨l1, rest⟩⟩
  · rw [heq] at h; cases h
  · rw [heq] at h; cases h
  · rw [heq] at h
    injection h with h
    subst h
    rcases hs : py_strip sec with _ | ⟨c0, s0⟩
    · rw [hs] at heq; simp [splitlines] at heq
    · have hc0 : pyIsSpace c0 = false := py_strip_head_not_space _ _ _ hs
      have hbc0 : isLineBreak c0 = false := by
        rcases hb : isLineBreak c0
        · rfl
        · rw [pyIsSpace_of_isLineBreak c0 hb] at hc0; cases hc0
      -- the first line starts with the head of the stripped section
      have hfirst : ∃ t rest2, splitlines (c0 :: s0) = (c0 :: t) :: rest2 := by
        rw [splitlines]
        simp only [List.isEmpty_cons, Bool.false_eq_true, if_false]
        rw [splitlinesAux.eq_def]
        split
        · rename_i h2; simp at h2
        · rename_i h2
          injection h2 with hc hr
          rw [hc] at hbc0; cases hbc0
        · rename_i h1 h2
          injection h2 with hc hr
          subst hc; subst hr
          rw [if_neg (by rw [hbc0]; simp)]
          obtain ⟨t, r2, hr2⟩ := splitlinesAux_first s0 [c0]
          exact ⟨t, r2, by simpa using hr2⟩
      -- the last line contains the last character of the stripped section
      have hlastchar : ∃ z, (py_strip sec).getLast? = some z ∧ pyIsSpace z = false := by
        rw [hs]
        rcases hgl : (c0 :: s0).getLast? with _ | z
        · simp at hgl
        · exact ⟨z, rfl, by
            apply py_strip_getLast_not_space sec
            rw [hs]; exact hgl⟩
      obtain ⟨z, hzl, hzs⟩ := hlastchar
      have hbz : isLineBreak z = false := by
        rcases hb : isLineBreak z
        · rfl
        · rw [pyIsSpace_of_isLineBreak z hb] at hzs; cases hzs
      have hlast : ∃ L, (splitlines (py_strip sec)).getLast? = some L ∧ z ∈ L := by
        rw [hs, splitlines]
        simp only [List.isEmpty_cons, Bool.false_eq_true, if_false]
        rw [hs] at hzl
        exact splitlinesAux_last (c0 :: s0) [] z hzl hbz
      obtain ⟨L, hLg, hzL⟩ := hlast
      rw [heq] at hLg
      rw [getLast?_cons_ne _ _ (by simp)] at hLg
      have hLmem : L ∈ l1 :: rest := mem_of_getLast?_eq _ _ hLg
      -- question nonempty
      obtain ⟨t, rest2, hfr⟩ := hfirst
      rw [← hs] at hfr
      rw [hfr] at heq
      injection heq with he0 he1
      have hq : py_strip l0 ≠ [] := by
        rw [← he0]
        exact py_strip_ne_nil_of_mem _ c0 (by simp) hc0
      have ha : py_strip (join_sep ['\n'] (l1 :: rest)) ≠ [] :=
        py_strip_ne_nil_of_mem _ z (mem_join_sep _ _ _ _ hLmem hzL) hzs
      refine ⟨?_, ?_, py_strip_idem l0, py_strip_idem (join_sep ['\n'] (l1 :: rest))⟩
      · rcases hqq : py_strip l0 with _ | _
        · exact absurd hqq hq
        · rfl
      · rcases haa : py_strip (join_sep ['\n'] (l1 :: rest)) with _ | _
        · exact absurd haa ha
        · rfl


/-- The parsing loop keeps exactly the fragments accepted by
`section_to_record`, in order. -/
theorem parse_sections_eq_filterMap (secs : List (List Char)) :
    parse_sections secs = secs.filterMap section_to_record := by
  induction secs using parse_sections.induct with
  | case1 => rfl
  | case2 sec rest hnone ih =>
    rw [parse_sections.eq_def]
    simp only [hnone, List.filterMap_cons]
    exact ih
  | case3 sec rest r hsome ih =>
    rw [parse_sections.eq_def]
    simp only [hsome, List.filterMap_cons]
    rw [ih]

/-- Text without the heading marker is a single fragment. -/
theorem split_sections_aux_no_triple (fuel : Nat) :
    ∀ cs acc, cs.length < fuel → contains_triple cs = false →
      split_sections_aux fuel cs acc = [acc.reverse ++ cs] := by
  induction fuel with
  | zero => intro cs acc h hct; exact absurd h (Nat.not_lt_zero _)
  | succ fuel ih =>
    intro cs acc hlen hct
    rcases cs with _ | ⟨c, rest⟩
    · simp [split_sections_aux]
    · rw [contains_triple] at hct
      simp only [Bool.or_eq_false_iff] at hct
      rw [split_sections_aux.eq_def]
      simp only [hct.1, Bool.false_eq_true, if_false]
      rw [ih rest (c :: acc) (by simpa using Nat.lt_of_succ_lt_succ hlen) hct.2]
      simp

/-- Text without the heading marker yields no records and no identifier:
the loader fails with the validation error. -/
theorem validate_no_triple (content : List Char)
    (h : contains_triple (strip_images content) = false) :
    validate_and_load content = .error md_error_msg := by
  have hsplit : split_sections (strip_images content) = [strip_images content] := by
    rw [split_sections]
    exact split_sections_aux_no_triple _ _ _ (Nat.lt_succ_self _) h
  rw [validate_and_load, parse_documents, hsplit]
  rfl

theorem foldl_append_pairs {α β : Type} (g : α → List β) (l : List α) (a : List β) :
    l.foldl (fun acc x => acc ++ g x) a = a ++ (l.map g).flatten := by
  induction l generalizing a with
  | nil => simp
  | cons x l ih => simp [List.foldl_cons, ih, List.append_assoc]

theorem foldl_render_blocks (qs : List QARecord) (a : List Char) :
    qs.foldl (fun acc r => acc ++ render_block r ++ ['\n', '\n']) a =
      a ++ (qs.map (fun r => render_block r ++ ['\n', '\n'])).flatten := by
  induction qs generalizing a with
  | nil => simp
  | cons q qs ih =>
    rw [List.foldl_cons, ih]
    simp [List.append_assoc]

/-- Flattening blank-line-terminated blocks is joining them with blank
lines plus one trailing blank line. -/
theorem flatten_blocks_eq_join (bs : List (List Char)) (hne : bs ≠ []) :
    (bs.map (fun b => b ++ ['\n', '\n'])).flatten =
      join_sep ['\n', '\n'] bs ++ ['\n', '\n'] := by
  induction bs using join_sep.induct ['\n', '\n'] with
  | case1 => exact absurd rfl hne
  | case2 l => simp [join_sep]
  | case3 l ls hne2 ih =>
    rw [join_sep.eq_def]
    split
    · rename_i h2; simp at h2
    · rename_i h2
      injection h2 with hl hls
      exact absurd hls (fun hh => hne2 hh)
    · rename_i h1 h2
      injection h2 with hl hls
      subst hl; subst hls
      simp only [List.map_cons, List.flatten_cons]
      rw [ih (fun hh => hne2 hh)]
      simp [List.append_assoc]

theorem dropWhile_append_all {α : Type} (p : α → Bool) (l1 l2 : List α)
    (h : ∀ a ∈ l1, p a = true) : (l1 ++ l2).dropWhile p = l2.dropWhile p := by
  induction l1 with
  | nil => simp
  | cons a l ih =>
    rw [List.cons_append, List.dropWhile_cons_of_pos (h a (by simp))]
    exact ih (fun b hb => h b (List.mem_cons_of_mem _ hb))

/-- Appending trailing whitespace does not change `py_rstrip`. -/
theorem py_rstrip_append_ws (x w : List Char) (h : ∀ c ∈ w, pyIsSpace c = true) :
    py_rstrip (x ++ w) = py_rstrip x := by
  unfold py_rstrip
  rw [List.reverse_append, dropWhile_append_all _ _ _ (by
    intro a ha; exact h a (List.mem_reverse.mp ha))]

/-- Appending trailing whitespace does not change `py_strip`. -/
theorem py_strip_append_ws (x w : List Char) (h : ∀ c ∈ w, pyIsSpace c = true) :
    py_strip (x ++ w) = py_strip x := by
  unfold py_strip
  rw [py_rstrip_append_ws x w h]


/-- Searching a name that is not among the collections yields `none`. -/
theorem lookup_collection_eq_none {V : Type} (st : QdrantState V) (name : List Char)
    (h : name ∉ get_collections st) : lookup_collection st name = none := by
  induction st with
  | nil => rfl
  | cons p rest ih =>
    rw [lookup_collection.eq_def]
    rcases p with ⟨n, pts⟩
    simp only
    rw [if_neg, ih]
    · intro hmem
      exact h (List.mem_cons_of_mem _ hmem)
    · intro hn
      exact h (by simp [get_collections, hn])

/-- Inverting a successful load: the records are the parse result and the
identifier is the document hash. -/
theorem validate_ok_inv (content : List Char) (docs : List QARecord) (ident : List Char)
    (h : validate_and_load content = .ok (docs, ident)) :
    docs = parse_documents content ∧ ident = document_encryption docs := by
  unfold validate_and_load at h
  rcases hp : parse_documents content with _ | ⟨d, ds⟩
  · rw [hp] at h; cases h
  · rw [hp] at h
    simp only [Except.ok.injEq, Prod.mk.injEq] at h
    obtain ⟨h1, h2⟩ := h
    subst h1
    exact ⟨rfl, h2.symm⟩

theorem flatten_pairs_length {α β : Type} (f g : α → β) (l : List α) :
    ((l.map fun p => [f p, g p]).flatten).length = 2 * l.length := by
  induction l with
  | nil => rfl
  | cons x l ih =>
    simp only [List.map_cons, List.flatten_cons, List.length_append, ih, List.length_cons]
    simp
    ring


/-! ## Concrete instances used by the claim evaluations -/

/-- A concrete embedding vector type and API used to evaluate the store
model: the vector is the text length. -/
def emb0 : List Char → Nat := List.length

/-- A concrete similarity ranking used to evaluate the store model: the
points in stored order. -/
def rank0 : Nat → List (Point Nat) → List (Point Nat) := fun _ pts => pts

/-- A three-record document set. -/
def docs3 : List QARecord :=
  [⟨"Q1".data, "A1".data⟩, ⟨"Q2".data, "A2".data⟩, ⟨"Q3".data, "A3".data⟩]

/-- A well-formed two-section markdown input. -/
def sample_content1 : List Char := "### Q1\nA1\n### Q2\nA2".data

/-- Its parse result. -/
def sample_docs1 : List QARecord := [⟨"Q1".data, "A1".data⟩, ⟨"Q2".data, "A2".data⟩]

/-- A three-section markdown input sharing the first and last question
with `sample_content1` but differing in everything between. -/
def sample_content2 : List Char := "### Q1\nB1\n### QX\nMID\n### Q2\nB2".data

/-- Its parse result. -/
def sample_docs2 : List QARecord :=
  [⟨"Q1".data, "B1".data⟩, ⟨"QX".data, "MID".data⟩, ⟨"Q2".data, "B2".data⟩]

/-- The SHA-256 hex digest of the bytes of `Q1Q2`. -/
def q1q2_hash : List Char :=
  "9d8c9fcdf5da81068db6ba40b5911eeafba1aba91b31430dddaa4c145e9e47dd".data

/-! ## Claim theorems -/

/-- C1: the claim says `retrieve(query, k)` returns at most `k` records and
exactly `|documents|` records when `|documents| < k`.  The code violates
the second half: `setup_qdrant` uploads only `documents[:2]`, so after
ingesting a three-record document set a search with `k = 5` returns the
two ingested records, not three.  This theorem evaluates the model at that
failing input. -/
theorem c1_retrieve_cap_bug :
    docs3.length = 3 ∧ (3 : Nat) < 5 ∧
    retrieve rank0 emb0 (setup_qdrant emb0 docs3 "col".data []) "col".data "query".data 5 =
      .ok [⟨"Q1".data, "A1".data⟩, ⟨"Q2".data, "A2".data⟩] := by decide

/-- C2: the claim says the first use of the retriever for an identifier
ensures the collection exists and is populated before the first search
succeeds.  The code violates this: no code path calls `setup_qdrant`, and
`retrieve` searches without creating anything, so on a store in which the
identifier is absent the search fails with the not-found error instead of
triggering creation. -/
theorem c2_no_lazy_setup_bug {V : Type} (rank : V → List (Point V) → List (Point V))
    (api_embed : List Char → V) (st : QdrantState V) (ident message : List Char) (k : Nat)
    (h : ident ∉ get_collections st) :
    retrieve rank api_embed st ident message k = .error () := by
  unfold retrieve
  rw [lookup_collection_eq_none st ident h]

theorem c2_no_lazy_setup_bug_witness :
    retrieve rank0 emb0 ([] : QdrantState Nat) "col".data "query".data 5 = .error () :=
  c2_no_lazy_setup_bug rank0 emb0 [] "col".data "query".data 5 (by decide)

/-- C3: a chat turn whose completion call exceeds the 15-second deadline
returns exactly the sentinel text and leaves the history unmodified; the
message/response pair is appended only on successful completion. -/
theorem c3_timeout_sentinel (elapsed : Nat) (result message : List Char)
    (history : List (List Char × List Char)) :
    (timeout_seconds < elapsed →
      process_message_async elapsed result message history =
        ("Request timed out.".data, history)) ∧
    (elapsed ≤ timeout_seconds →
      process_message_async elapsed result message history =
        (result, history ++ [(message, result)])) := by
  constructor
  · intro he
    unfold process_message_async await_with_timeout
    rw [if_neg (Nat.not_le.mpr he)]
  · intro he
    unfold process_message_async await_with_timeout
    rw [if_pos he]

theorem c3_timeout_sentinel_witness :
    process_message_async 16 "ok".data "hi".data [("a".data, "b".data)] =
      ("Request timed out.".data, [("a".data, "b".data)]) ∧
    process_message_async 3 "ok".data "hi".data [] =
      ("ok".data, [("hi".data, "ok".data)]) :=
  ⟨(c3_timeout_sentinel 16 "ok".data "hi".data [("a".data, "b".data)]).1 (by decide),
   (c3_timeout_sentinel 3 "ok".data "hi".data []).2 (by decide)⟩

/-- C4: ingest builds one point per record for exactly the first two
records (`documents[:2]`), with sequential integer ids starting at 0, the
embedding of the question as vector, and the full record as payload. -/
theorem c4_upload_points {V : Type} (api_embed : List Char → V) (docs : List QARecord) :
    (upload_points api_embed docs).length = min 2 docs.length ∧
    ∀ i, (upload_points api_embed docs).get? i =
      if i < 2 then (docs.get? i).map (fun d => ⟨i, get_embedding api_embed d.question, d⟩)
      else none := by
  constructor
  · rcases docs with _ | ⟨a, _ | ⟨b, t⟩⟩ <;> simp [upload_points]
  · intro i
    rcases docs with _ | ⟨a, _ | ⟨b, t⟩⟩ <;>
      rcases i with _ | _ | i <;>
        simp [upload_points, List.get?] <;>
          rw [if_neg (by omega)]

/-- C5: the two-section example input parses to exactly the expected
two-record sequence, in order. -/
theorem c5_parse_example :
    parse_documents "### Q1\nA1\n### Q2\nA2".data =
      [⟨"Q1".data, "A1".data⟩, ⟨"Q2".data, "A2".data⟩] := by decide

/-- C6: the parser skips exactly the fragments whose stripped text has
fewer than two lines (never fatally), the loader fails with the
validation error precisely when zero valid records result, and input whose
image-stripped text has no `###` marker fails that way (so no collection
can be created from it). -/
theorem c6_parser_error_handling :
    (∀ content, parse_documents content =
        ((split_sections (strip_images content)).drop 1).filterMap section_to_record) ∧
    (∀ sec, section_to_record sec = none ↔ (splitlines (py_strip sec)).length < 2) ∧
    (∀ content, validate_and_load content = .error md_error_msg ↔
        parse_documents content = []) ∧
    (∀ content, contains_triple (strip_images content) = false →
        validate_and_load content = .error md_error_msg) := by
  refine ⟨?_, section_to_record_none_iff, ?_, validate_no_triple⟩
  · intro content
    rw [parse_documents, parse_sections_eq_filterMap]
  · intro content
    constructor
    · intro h
      rcases hp : parse_documents content with _ | ⟨d, ds⟩
      · rfl
      · unfold validate_and_load at h
        rw [hp] at h
        cases h
    · intro h
      unfold validate_and_load
      rw [h]

theorem c6_parser_error_handling_witness :
    validate_and_load "plain text with no headings".data = .error md_error_msg :=
  c6_parser_error_handling.2.2.2 "plain text with no headings".data (by decide)

/-- C7: a successful load returns as identifier the lowercase hex SHA-256
digest of the UTF-8 bytes of the first question concatenated with the last
question; hence two loads sharing first and last question share the
identifier whatever lies between. -/
theorem c7_document_encryption (content1 content2 : List Char)
    (docs1 docs2 : List QARecord) (ident1 ident2 : List Char)
    (h1 : validate_and_load content1 = .ok (docs1, ident1))
    (h2 : validate_and_load content2 = .ok (docs2, ident2)) :
    ident1 = sha256_hex (utf8_encode (first_question docs1 ++ last_question docs1)) ∧
    (first_question docs1 = first_question docs2 →
      last_question docs1 = last_question docs2 → ident1 = ident2) := by
  obtain ⟨-, hid1⟩ := validate_ok_inv _ _ _ h1
  obtain ⟨-, hid2⟩ := validate_ok_inv _ _ _ h2
  constructor
  · rw [hid1]; rfl
  · intro hq hl
    rw [hid1, hid2]
    unfold document_encryption
    rw [hq, hl]

theorem c7_document_encryption_witness :
    q1q2_hash =
      sha256_hex (utf8_encode (first_question sample_docs1 ++ last_question sample_docs1)) ∧
    (first_question sample_docs1 = first_question sample_docs2 →
      last_question sample_docs1 = last_question sample_docs2 → q1q2_hash = q1q2_hash) :=
  c7_document_encryption sample_content1 sample_content2 sample_docs1 sample_docs2
    q1q2_hash q1q2_hash (by decide) (by decide)

/-- C8 counterexample: the claim says the prompt block trims trailing
whitespace exactly once, but the source calls Python `strip()`, which also
trims leading whitespace: on a record whose question starts with a space
the two renderings differ. -/
theorem c8_reformat_counterexample :
    reformat_closest_queries [⟨" Q".data, "A".data⟩] ≠
      reformat_spec_trailing_only [⟨" Q".data, "A".data⟩] := by decide

/-- C8 (amended): reformatting renders each record as question, newline,
answer, joins consecutive records with a blank line in retrieval order,
and trims leading and trailing whitespace exactly once. -/
theorem c8_reformat_strips_once (queries : List QARecord) :
    reformat_closest_queries queries =
      py_strip (join_sep ['\n', '\n'] (queries.map render_block)) := by
  rcases queries with _ | ⟨q, rest⟩
  · rfl
  · unfold reformat_closest_queries
    rw [foldl_render_blocks (q :: rest) [], List.nil_append]
    have hmm : (q :: rest).map (fun r => render_block r ++ ['\n', '\n']) =
        ((q :: rest).map render_block).map (fun b => b ++ ['\n', '\n']) := by
      rw [List.map_map]
      rfl
    rw [hmm, flatten_blocks_eq_join _ (by simp)]
    exact py_strip_append_ws _ _ (by intro c hc; simp at hc; subst hc; rfl)

/-- C9: converting history plus the current message to LangChain turns
yields, for each history pair in order, a human then an ai entry, and the
current message as a final human entry, for a total of twice the history
length plus one. -/
theorem c9_langchain_format (message : List Char)
    (history : List (List Char × List Char)) :
    langchain_format message history =
      (history.map (fun p => [LCMessage.human p.1, LCMessage.ai p.2])).flatten ++
        [LCMessage.human message] ∧
    (langchain_format message history).length = 2 * history.length + 1 ∧
    (langchain_format message history).getLast? = some (LCMessage.human message) := by
  have h1 : langchain_format message history =
      (history.map (fun p => [LCMessage.human p.1, LCMessage.ai p.2])).flatten ++
        [LCMessage.human message] := by
    unfold langchain_format
    rw [foldl_append_pairs (fun p => [LCMessage.human p.1, LCMessage.ai p.2]) history [],
      List.nil_append]
  refine ⟨h1, ?_, ?_⟩
  · rw [h1, List.length_append]
    clear h1
    induction history with
    | nil => rfl
    | cons p l ih =>
      simp only [List.map_cons, List.flatten_cons, List.length_append, List.length_cons,
        List.length_nil] at ih ⊢
      omega
  · rw [h1]
    exact List.getLast?_concat _

/-- C10: every record of a successful parse has a nonempty question and a
nonempty answer, both free of leading and trailing whitespace. -/
theorem c10_records_invariant (content : List Char) (docs : List QARecord)
    (ident : List Char) (r : QARecord)
    (hok : validate_and_load content = .ok (docs, ident)) (hr : r ∈ docs) :
    r.question.isEmpty = false ∧ r.answer.isEmpty = false ∧
      py_strip r.question = r.question ∧ py_strip r.answer = r.answer := by
  obtain ⟨hdocs, -⟩ := validate_ok_inv _ _ _ hok
  subst hdocs
  rw [parse_documents, parse_sections_eq_filterMap] at hr
  obtain ⟨sec, hsec, hrec⟩ := List.mem_filterMap.mp hr
  exact section_to_record_props sec r hrec

theorem c10_records_invariant_witness :
    (⟨"Q1".data, "A1".data⟩ : QARecord).question.isEmpty = false ∧
    (⟨"Q1".data, "A1".data⟩ : QARecord).answer.isEmpty = false ∧
    py_strip (⟨"Q1".data, "A1".data⟩ : QARecord).question =
      (⟨"Q1".data, "A1".data⟩ : QARecord).question ∧
    py_strip (⟨"Q1".data, "A1".data⟩ : QARecord).answer =
      (⟨"Q1".data, "A1".data⟩ : QARecord).answer :=
  c10_records_invariant sample_content1 sample_docs1 q1q2_hash ⟨"Q1".data, "A1".data⟩
    (by decide) (by decide)

/-! ## Sanity checks of the SHA-256 embedding against the FIPS 180-4 test
vectors -/

theorem sha256_hex_empty_vector :
    sha256_hex (utf8_encode "".data) =
      "e3b0c44298fc1c149afbf4c8996fb92427ae41e4649b934ca495991b7852b855".data := by decide

theorem sha256_hex_abc_vector :
    sha256_hex (utf8_encode "abc".data) =
      "ba7816bf8f01cfea414140de5dae2223b00361a396177a9cb410ff61f20015ad".data := by decide
